import Mathlib

/-!
Shallow embedding of the nanoDB upload tool (nanoDBTools.py, nanoUpload.py,
bin/nanoUpload.py): the manifest parser, the ephemeris exporter, the two
remote-store upload protocols (FTP and SFTP), the CLI argument handling and
the two batch orchestrators, together with theorems checking the
specification's claims against these definitions.
-/

set_option maxHeartbeats 1000000

/-! ## String utilities mirroring the Python primitives used by the source -/

/-- Mirror of Python `str.split(sep)` for a single-character separator:
the accumulator-based scan that produces one piece per separator occurrence
(so `"".split(sep) = [""]`). -/
def splitOnCharAux (c : Char) : List Char → List Char → List String
  | [], acc => [String.mk acc.reverse]
  | x :: xs, acc =>
    if x = c then String.mk acc.reverse :: splitOnCharAux c xs []
    else splitOnCharAux c xs (x :: acc)

/-- Mirror of Python `s.split(c)` for a one-character separator `c`. -/
def splitOnChar (c : Char) (s : String) : List String :=
  splitOnCharAux c s.data []

/-- Mirror of Python `str.strip()` (whitespace removed from both ends). -/
def trimWS (s : String) : String :=
  String.mk (((s.data.dropWhile Char.isWhitespace).reverse.dropWhile
    Char.isWhitespace).reverse)

/-- Mirror of Python `str.strip(c)` for a one-character argument: remove every
leading and trailing occurrence of `c`. -/
def stripChar (c : Char) (s : String) : String :=
  String.mk (((s.data.dropWhile (· = c)).reverse.dropWhile (· = c)).reverse)

/-- Mirror of Python `str.lower()` restricted to ASCII, which is all the
source ever lowercases (backend names). -/
def lowerStr (s : String) : String :=
  String.mk (s.data.map Char.toLower)

/-- Fuel-bounded core of `str.replace`: replaces non-overlapping occurrences
of `pat` left to right. -/
def replaceFuel (pat rep : List Char) : Nat → List Char → List Char
  | 0, l => l
  | _, [] => []
  | fuel + 1, x :: xs =>
    if pat ≠ [] ∧ pat = List.take pat.length (x :: xs) then
      rep ++ replaceFuel pat rep fuel (List.drop pat.length (x :: xs))
    else
      x :: replaceFuel pat rep fuel xs

/-- Mirror of Python `s.replace(pat, rep)` for non-empty `pat`. -/
def strReplace (s pat rep : String) : String :=
  String.mk (replaceFuel pat.data rep.data s.data.length s.data)

/-- Mirror of Python `os.path.join` on relative, slash-free components (the
only way the source joins relative pieces). -/
def joinRel (comps : List String) : String :=
  String.intercalate "/" comps

/-- Python `arg.startswith("-")`. -/
def startsDash (s : String) : Bool :=
  match s.data with
  | [] => false
  | c :: _ => c = '-'

/-! ## Manifest parser (`nanoDBTools.parse_metafile`) -/

/-- One manifest entry, as a key/value mapping with Python-dict update
semantics (`entry[key] = value`). -/
abbrev Entry := List (String × String)

/-- `entry[key] = value`: overwrite the existing binding or append a new
one. -/
def dictInsert (d : Entry) (k v : String) : Entry :=
  if d.any (fun p => p.1 = k) then
    d.map (fun p => if p.1 = k then (k, v) else p)
  else
    d ++ [(k, v)]

/-- The `try:` block head of the scan loop of `parse_metafile`:
`key, value = [s.strip() for s in line.split(":")]`.  The two-element
unpacking raises (and the line is skipped) unless the split produces exactly
two pieces, i.e. unless the line holds exactly one colon. -/
def lineKV (line : String) : Option (String × String) :=
  match splitOnChar ':' line with
  | [k, v] => some (trimWS k, trimWS v)
  | _ => none

/-- One iteration of the scan loop of `parse_metafile` over the state
(finished entries so far, current open entry). -/
def scanStep (st : List Entry × Entry) (line : String) : List Entry × Entry :=
  match lineKV line with
  | none => st
  | some (k, v) =>
    let (entries, entry) := st
    if k = "ProfileName" then
      let entries' := if entry.length ≠ 0 then entries ++ [entry] else entries
      (entries', dictInsert [] k v)
    else
      (entries, dictInsert entry k v)

/-- The type-tagging pass at the end of `parse_metafile`: each finished entry
gets `entry["type"] = "TOA"` if it holds a `TOA` key and `"archive"`
otherwise. -/
def tagEntry (e : Entry) : Entry :=
  if e.any (fun p => p.1 = "TOA") then dictInsert e "type" "TOA"
  else dictInsert e "type" "archive"

/-- `nanoDBTools.parse_metafile`, on the list of lines of the manifest.  The
scan appends the open entry to the output only when a new `ProfileName`
marker is met; after the loop the still-open entry is dropped (there is no
final flush in the source). -/
def parse_metafile (lines : List String) : List Entry :=
  let (entries, _) := lines.foldl scanStep ([], [])
  entries.map tagEntry

/-! ## Ephemeris exporter (`nanoUpload.write_ephemeris`) -/

/-- A value of one named parameter of the ephemeris record: in the source
these are the numpy scalars and strings of the FITS table row. -/
inductive PVal
  | num (n : Int)
  | str (s : String)
deriving DecidableEq

/-- The write condition of the exporter loop:
`if value != 0 and value != ""` (in Python a string never equals `0` and a
number never equals `""`). -/
def keepVal : PVal → Bool
  | .num n => n ≠ 0
  | .str s => s ≠ ""

/-- Left-justify in a field of width `w` (Python `"%-10s"`). -/
def padRightStr (s : String) (w : Nat) : String :=
  s ++ String.mk (List.replicate (w - s.data.length) ' ')

/-- Right-justify in a field of width `w` (Python `"%18s"`). -/
def padLeftStr (s : String) (w : Nat) : String :=
  String.mk (List.replicate (w - s.data.length) ' ') ++ s

/-- Python `str(value)`. -/
def pvalStr : PVal → String
  | .num n => toString n
  | .str s => s

/-- One output line of the exporter: `"%-10s%18s\n" % (key, value)`. -/
def fmtKV (kv : String × PVal) : String :=
  padRightStr kv.1 10 ++ padLeftStr (pvalStr kv.2) 18 ++ "\n"

/-- The exporter's write loop: successive `outfile.write` calls over the
record's fields in their native order, writing a line only for values that
are neither `0` nor the empty string. -/
def write_ephemeris_output (record : List (String × PVal)) : List String :=
  record.foldl (fun acc kv => if keepVal kv.2 then acc ++ [fmtKV kv] else acc) []

/-- `nanoUpload.write_ephemeris`: for a GUPPI or PUPPI file it writes the par
file named by replacing `.fits` with `.par` and returns status `0`; for any
other backend it writes nothing and returns status `1` with no file name.
The third component is the sequence of written lines. -/
def write_ephemeris (filenm backend : String) (record : List (String × PVal)) :
    Nat × Option String × List String :=
  if backend = "GUPPI" ∨ backend = "PUPPI" then
    (0, some (strReplace filenm ".fits" ".par"), write_ephemeris_output record)
  else
    (1, none, [])

/-! ## CLI argument handling -/

/-- Outcome of the argument-handling prologue of either script: terminate the
process with an exit code, or proceed treating the arguments as input
files. -/
inductive CliResult
  | exitc (code : Nat)
  | proceed (infiles : List String)
deriving DecidableEq

/-- `bin/nanoUpload.parse_arguments`: returns the argument list, or the empty
list when the help flag was present, no argument was given, or an
unrecognized option was found. -/
def parse_arguments (args : List String) : List String :=
  if args.length = 0 ∨ "-h" ∈ args ∨ "--help" ∈ args then []
  else if args.any startsDash then []
  else args

/-- Argument handling of `bin/nanoUpload.py` `__main__`: after
`parse_arguments`, an empty result reaches `sys.exit()`, which terminates
with exit code 0. -/
def binCli (args : List String) : CliResult :=
  if (parse_arguments args).length = 0 then .exitc 0
  else .proceed (parse_arguments args)

/-- Argument handling of `nanoUpload.py` `__main__`: help or no argument
reaches `sys.exit(0)`; any remaining argument starting with `-` reaches
`sys.exit(1)`; otherwise the arguments are the input files. -/
def legacyCli (args : List String) : CliResult :=
  if args.length = 0 ∨ "-h" ∈ args ∨ "--help" ∈ args then .exitc 0
  else if args.any startsDash then .exitc 1
  else .proceed args

/-! ## FTP remote store (`CornellFTP`)

The session state of the TLS-FTP connection: the remote directory tree (as
(parent path, name) pairs under the root), the remote files (directory path,
base name, byte size), the session's working directory, and a count of byte
streams transferred so far.  `fail` injects server-side failures of `mkd`
(the transport may refuse a creation); `storedSize` is the size the transfer
actually deposits remotely (which verification compares to the local size).
An `Except` error carries the session state at the moment the underlying FTP
call raised. -/

/-- Outcome reported by an upload that ran to completion. -/
inductive UploadOutcome
  | success
  | alreadyPresent
  | verificationMismatch
deriving DecidableEq

/-- FTP session state. -/
structure FTPState where
  dirs : List (List String × String)
  files : List (List String × String × Nat)
  cwd : List String
  transfers : Nat
deriving DecidableEq

/-- `self.nlst(path)`: names of the directories and files sitting in `p`. -/
def FTPState.nlstAt (st : FTPState) (p : List String) : List String :=
  (st.dirs.filterMap fun e => if e.1 = p then some e.2 else none) ++
    (st.files.filterMap fun e => if e.1 = p then some e.2.1 else none)

/-- The directory-creation loop of `CornellFTP.upload`: for each segment of
the remote path, `nlst()` the working directory, `mkd` the segment if absent
(which may raise, modelled by `fail`), and `cwd` into it (which raises if the
segment is not a directory). -/
def mkDirLoop (fail : List String → Bool) :
    FTPState → List String → Except FTPState FTPState
  | st, [] => .ok st
  | st, d :: rest =>
    match (if d ∈ st.nlstAt st.cwd then Except.ok st
           else if fail (st.cwd ++ [d]) then Except.error st
           else Except.ok { st with dirs := (st.cwd, d) :: st.dirs }) with
    | .error s => .error s
    | .ok st1 =>
      if (st1.cwd, d) ∈ st1.dirs then
        mkDirLoop fail { st1 with cwd := st1.cwd ++ [d] } rest
      else .error st1

/-- The directory phase of `CornellFTP.upload`: run the creation loop over
`remote_path.split("/")` and, on success only, `cwd("/")` back to the root.
There is no `try/finally` in the source: when the loop raises, the exception
propagates with the session left wherever the loop stopped. -/
def ensureDirectoryC (fail : List String → Bool) (st : FTPState)
    (remotePath : String) : Except FTPState FTPState :=
  match mkDirLoop fail st (splitOnChar '/' remotePath) with
  | .ok st' => .ok { st' with cwd := [] }
  | .error st' => .error st'

/-- `CornellFTP.upload`: directory phase, then `nlst(remote_path)`; if the
base name is absent, transfer (`storbinary`) and verify the remote size
against the local size; otherwise skip with `alreadyPresent`. -/
def CornellFTP.upload (fail : List String → Bool) (storedSize localSize : Nat)
    (st : FTPState) (filenm remotePath : String) :
    Except FTPState (FTPState × UploadOutcome) :=
  match ensureDirectoryC fail st remotePath with
  | .error st' => .error st'
  | .ok st1 =>
    if filenm ∈ st1.nlstAt (splitOnChar '/' remotePath) then
      .ok (st1, .alreadyPresent)
    else if storedSize = localSize then
      .ok ({ st1 with
        files := (splitOnChar '/' remotePath, filenm, storedSize) :: st1.files,
        transfers := st1.transfers + 1 }, .success)
    else
      .ok ({ st1 with
        files := (splitOnChar '/' remotePath, filenm, storedSize) :: st1.files,
        transfers := st1.transfers + 1 }, .verificationMismatch)

/-- Every prefix step of `segs` below `base` exists as a directory in `ds`. -/
def pathReadyD : List (List String × String) → List String → List String → Prop
  | _, _, [] => True
  | ds, base, d :: rest => (base, d) ∈ ds ∧ pathReadyD ds (base ++ [d]) rest

/-! ## SFTP remote store (`UBCSFTP`) -/

/-- The kind of `IOError` an SFTP call raised: from `mkdir`, or from
`listdir` on a missing directory. -/
inductive SFTPErr
  | mkdirErr
  | listdirErr
deriving DecidableEq

/-- SFTP session state: remote directories as absolute segment paths, remote
files as (directory path, base name, byte size), and the transfer count. -/
structure SFTPState where
  dirs : List (List String)
  files : List (List String × String × Nat)
  transfers : Nat
deriving DecidableEq

/-- `self.sftp.listdir(p)`: base names of the subdirectories and files of
`p`. -/
def SFTPState.listdirNames (st : SFTPState) (p : List String) : List String :=
  (st.dirs.filterMap fun d => if d.dropLast = p then d.getLast? else none) ++
    (st.files.filterMap fun e => if e.1 = p then some e.2.1 else none)

/-- `self.sftp.mkdir(p)`: raises `IOError` when the path is the root, already
exists, has a missing parent, or when the server refuses the creation (the
injected `err`). -/
def sftp_mkdir (err : List String → Bool) (st : SFTPState) (p : List String) :
    Except SFTPErr SFTPState :=
  if p = [] then .error .mkdirErr
  else if p ∈ st.dirs then .error .mkdirErr
  else if p.dropLast = [] ∨ p.dropLast ∈ st.dirs then
    if err p then .error .mkdirErr
    else .ok { st with dirs := p :: st.dirs }
  else .error .mkdirErr

/-- The directory-creation loop of `UBCSFTP.upload`: accumulate
`path = os.path.join(path, directory)` from the root over
`remote_path.split("/")` (an empty segment leaves the target unchanged) and
`mkdir` each accumulated path inside `try: ... except IOError: pass`, so
every `IOError` — not only directory-already-exists — is discarded. -/
def sftpMkdirLoop (err : List String → Bool) :
    SFTPState → List String → List String → SFTPState
  | st, _, [] => st
  | st, path, d :: rest =>
    match sftp_mkdir err st (if d = "" then path else path ++ [d]) with
    | .ok s => sftpMkdirLoop err s (if d = "" then path else path ++ [d]) rest
    | .error _ => sftpMkdirLoop err st (if d = "" then path else path ++ [d]) rest

/-- The canonical segment path a remote path string denotes. -/
def canonSegs (p : String) : List String :=
  (splitOnChar '/' p).filter (fun d => d ≠ "")

/-- The transfer phase of `UBCSFTP.upload`: `listdir(remote_path)` (which
raises if the directory is missing), skip when the base name is listed,
otherwise `put` and compare `stat().st_size` with the local size. -/
def sftpUploadPhase (storedSize localSize : Nat) (st : SFTPState)
    (filenm remotePath : String) :
    Except (SFTPErr × SFTPState) (SFTPState × UploadOutcome) :=
  if canonSegs remotePath = [] ∨ canonSegs remotePath ∈ st.dirs then
    if filenm ∈ st.listdirNames (canonSegs remotePath) then
      .ok (st, .alreadyPresent)
    else if storedSize = localSize then
      .ok ({ st with
        files := (canonSegs remotePath, filenm, storedSize) :: st.files,
        transfers := st.transfers + 1 }, .success)
    else
      .ok ({ st with
        files := (canonSegs remotePath, filenm, storedSize) :: st.files,
        transfers := st.transfers + 1 }, .verificationMismatch)
  else .error (.listdirErr, st)

/-- `UBCSFTP.upload`: the mkdir loop (whose errors are all swallowed)
followed by the listdir/transfer phase. -/
def UBCSFTP.upload (err : List String → Bool) (storedSize localSize : Nat)
    (st : SFTPState) (filenm remotePath : String) :
    Except (SFTPErr × SFTPState) (SFTPState × UploadOutcome) :=
  sftpUploadPhase storedSize localSize
    (sftpMkdirLoop err st [] (splitOnChar '/' remotePath)) filenm remotePath

/-! ## Metadata resolution and the batch orchestrators -/

/-- The header fields of an input data file that the tool reads. -/
structure FileMeta where
  backend : String
  srcName : String
  dateObs : String
  sttImjd : Int
  sttSmjd : Int
deriving DecidableEq

/-- What `determine_filetype` finds a command-line argument to be: a FITS
file (with its header), a metadata manifest (with its lines), or unknown. -/
inductive FileKind
  | fits (m : FileMeta)
  | meta (ls : List String)
  | unknown

/-- The year component of a date: `hdr["DATE-OBS"].split("-")[0]`. -/
def yearOfDate (d : String) : String :=
  (splitOnChar '-' d).headD ""

/-- `source.strip("B").strip("J")`. -/
def stripBJ (s : String) : String :=
  stripChar 'J' (stripChar 'B' s)

/-- `bin/nanoUpload.parse_archive`: resolves (source, backend, year) from a
FITS header; `GUPPI2` is folded into `GUPPI`; an unrecognized backend yields
`None` for backend and year.  `djcl` stands for the external
`pyslalib.slalib.sla_djcl` calendar conversion applied to the MJD built from
`STT_IMJD` and `STT_SMJD`. -/
def parse_archive (djcl : Int → Int → Int) (m : FileMeta) :
    String × Option String × Option String :=
  if m.backend = "GUPPI2" then
    (m.srcName, some "GUPPI", some (yearOfDate m.dateObs))
  else if m.backend = "PUPPI" then
    (m.srcName, some "PUPPI", some (yearOfDate m.dateObs))
  else if m.backend = "xASP" then
    (m.srcName, some "ASP", some (toString (djcl m.sttImjd m.sttSmjd)))
  else
    (m.srcName, none, none)

/-- `nanoUpload.get_remote_paths` (legacy script): resolves the two remote
paths, or calls `exit(1)` — aborting the whole process — when the backend is
not GUPPI, PUPPI or xASP. -/
def get_remote_paths (djcl : Int → Int → Int) (m : FileMeta) :
    Except Nat (String × String) :=
  if m.backend = "GUPPI" ∨ m.backend = "PUPPI" then
    .ok (joinRel [m.srcName, m.backend, yearOfDate m.dateObs, "rawdata"],
      joinRel [stripBJ m.srcName, lowerStr m.backend])
  else if m.backend = "xASP" then
    .ok (joinRel [m.srcName, "ASP", toString (djcl m.sttImjd m.sttSmjd),
        "rawdata"],
      joinRel [stripBJ m.srcName, lowerStr "ASP"])
  else
    .error 1

/-- One upload work item of `bin/nanoUpload.py`: (file name, Cornell path,
UBC path). -/
abbrev UploadItem := String × String × String

/-- The contribution of one input file to the `uploads` list of
`bin/nanoUpload.py`; `.error ()` marks an uncaught Python exception in the
pre-pass (a manifest entry without `ProfileName`, or a profile reference
that `pyfits` cannot open). -/
def binPerFile (djcl : Int → Int → Int) (env : String → FileKind)
    (f : String) : Except Unit (List UploadItem) :=
  match env f with
  | .fits m =>
    match parse_archive djcl m with
    | (source, some b, some y) =>
      .ok [(f, joinRel ["NANOGrav", source, b, y, "rawdata"],
        "/" ++ joinRel ["dstore", "data", stripBJ source, lowerStr b])]
    | _ => .ok []
  | .meta ls =>
    match (parse_metafile ls).foldl (fun acc entry =>
      match acc with
      | .error e => .error e
      | .ok items =>
        if entry.lookup "type" = some "archive" then
          match entry.lookup "ProfileName" with
          | none => .error ()
          | some pn =>
            match env pn with
            | .fits m =>
              match parse_archive djcl m with
              | (source, some b, some y) =>
                .ok (items ++
                  [(pn, joinRel ["NANOGrav", source, b, y, "processed"],
                    "/" ++ joinRel ["dstore", "data", stripBJ source,
                      lowerStr b])])
              | _ => .ok items
            | _ => .error ()
        else .ok items) (Except.ok []) with
    | .error e => .error e
    | .ok items =>
      .ok (items ++ [(f, "NANOGrav/loadingfiles", "/dstore/data/loadingfiles")])
  | .unknown => .ok []

/-- The full pre-pass of `bin/nanoUpload.py` `__main__` building `uploads`
from the input files, skipping files with unrecognized backends or of
unknown type and continuing with the rest. -/
def binBuildUploads (djcl : Int → Int → Int) (env : String → FileKind) :
    List String → Except Unit (List UploadItem)
  | [] => .ok []
  | f :: rest =>
    match binPerFile djcl env f with
    | .error e => .error e
    | .ok items =>
      match binBuildUploads djcl env rest with
      | .error e => .error e
      | .ok more => .ok (items ++ more)

/-- Which archive site an upload attempt targeted. -/
inductive SiteTag
  | cornell
  | ubc
deriving DecidableEq

/-- One observed upload attempt of an orchestrator run: the site, the file
name, and whether the store call completed (`false` when it raised and the
`except` branch logged the failure). -/
structure Attempt where
  site : SiteTag
  file : String
  ok : Bool
deriving DecidableEq

/-- One `try: upload(...) except: print(...)` iteration against a store
whose behaviour — completing or raising, with its state evolution — is the
abstract transport `up`. -/
def tryUp {σ : Type} (tag : SiteTag) (up : σ → String → String → Except σ σ)
    (st : σ) (f pth : String) : σ × Attempt :=
  match up st f pth with
  | .ok st' => (st', ⟨tag, f, true⟩)
  | .error st' => (st', ⟨tag, f, false⟩)

/-- One site pass of `bin/nanoUpload.py` `__main__`: the loop over `uploads`
that attempts every item against one store, catching every failure. -/
def sitePass {σ : Type} (tag : SiteTag)
    (up : σ → String → String → Except σ σ) :
    σ → List (String × String) → σ × List Attempt
  | st, [] => (st, [])
  | st, (f, pth) :: rest =>
    ((sitePass tag up (tryUp tag up st f pth).1 rest).1,
      (tryUp tag up st f pth).2 ::
        (sitePass tag up (tryUp tag up st f pth).1 rest).2)

/-- The upload phase of `bin/nanoUpload.py` `__main__`: a full Cornell pass
over all items, then a full UBC pass, returning both final store states and
the concatenated attempt trace. -/
def binOrchestrate {σC σU : Type} (upC : σC → String → String → Except σC σC)
    (upU : σU → String → String → Except σU σU) (sC : σC) (sU : σU)
    (uploads : List UploadItem) : σC × σU × List Attempt :=
  ((sitePass .cornell upC sC (uploads.map fun u => (u.1, u.2.1))).1,
   (sitePass .ubc upU sU (uploads.map fun u => (u.1, u.2.2))).1,
   (sitePass .cornell upC sC (uploads.map fun u => (u.1, u.2.1))).2 ++
     (sitePass .ubc upU sU (uploads.map fun u => (u.1, u.2.2))).2)

/-- The four (or two) guarded upload attempts the legacy script makes for one
input file: the file against Cornell then UBC, then — when an ephemeris was
written — the par file against Cornell then UBC. -/
def legacyFileAttempts {σC σU : Type}
    (upC : σC → String → String → Except σC σC)
    (upU : σU → String → String → Except σU σU) (sC : σC) (sU : σU)
    (f cpath upath : String) (withPar : Option String) :
    σC × σU × List Attempt :=
  match withPar with
  | some pn =>
    ((tryUp .cornell upC (tryUp .cornell upC sC f cpath).1 pn cpath).1,
     (tryUp .ubc upU (tryUp .ubc upU sU f upath).1 pn upath).1,
     [(tryUp .cornell upC sC f cpath).2,
      (tryUp .ubc upU sU f upath).2,
      (tryUp .cornell upC (tryUp .cornell upC sC f cpath).1 pn cpath).2,
      (tryUp .ubc upU (tryUp .ubc upU sU f upath).1 pn upath).2])
  | none =>
    ((tryUp .cornell upC sC f cpath).1, (tryUp .ubc upU sU f upath).1,
     [(tryUp .cornell upC sC f cpath).2, (tryUp .ubc upU sU f upath).2])

/-- Result of a run of the legacy `nanoUpload.py` `__main__` loop: the final
store states, the attempt trace, and the exit code when `get_remote_paths`
aborted the process. -/
structure LegacyRes (σC σU : Type) where
  stC : σC
  stU : σU
  trace : List Attempt
  exited : Option Nat

/-- The par-file name the legacy loop uploads for a file, when its
`write_ephemeris` call reported success (status 0). -/
def legacyPar (env : String → FileMeta)
    (recOf : String → List (String × PVal)) (f : String) : Option String :=
  if (write_ephemeris f (env f).backend (recOf f)).1 = 0 then
    (write_ephemeris f (env f).backend (recOf f)).2.1
  else none

/-- The `__main__` loop of the legacy `nanoUpload.py`: per input file, write
the ephemeris (GUPPI/PUPPI only; its only effect outside the run is the
local par file), resolve the remote paths — `exit(1)` on an unrecognized
backend aborts the whole batch — then try the file against Cornell and UBC
and, when the ephemeris was written (status 0), try the par file against
both stores too.  `recOf` supplies each file's ephemeris record. -/
def legacyMain {σC σU : Type} (djcl : Int → Int → Int)
    (env : String → FileMeta) (recOf : String → List (String × PVal))
    (upC : σC → String → String → Except σC σC)
    (upU : σU → String → String → Except σU σU) :
    σC → σU → List String → LegacyRes σC σU
  | sC, sU, [] => ⟨sC, sU, [], none⟩
  | sC, sU, f :: rest =>
    match get_remote_paths djcl (env f) with
    | .error code => ⟨sC, sU, [], some code⟩
    | .ok (cp, up2) =>
      let A := legacyFileAttempts upC upU sC sU f (joinRel ["NANOGrav", cp])
        ("/" ++ joinRel ["dstore", "data", up2]) (legacyPar env recOf f)
      let r := legacyMain djcl env recOf upC upU A.1 A.2.1 rest
      ⟨r.stC, r.stU, A.2.2 ++ r.trace, r.exited⟩

/-- The attempts the legacy loop is expected to make when no backend is
unrecognized: for each file in order, the file against Cornell then UBC,
and for GUPPI/PUPPI files also its par file against Cornell then UBC. -/
def legacyExpectedTrace (env : String → FileMeta) :
    List String → List (SiteTag × String)
  | [] => []
  | f :: rest =>
    (if (env f).backend = "GUPPI" ∨ (env f).backend = "PUPPI" then
      [(SiteTag.cornell, f), (SiteTag.ubc, f),
        (SiteTag.cornell, strReplace f ".fits" ".par"),
        (SiteTag.ubc, strReplace f ".fits" ".par")]
    else
      [(SiteTag.cornell, f), (SiteTag.ubc, f)]) ++ legacyExpectedTrace env rest

/-! ## Theorems: manifest parser claims -/

/-- C3: the spec says the parser flushes the last open entry after the scan,
so the manifest `ProfileName: a / X: 1 / ProfileName: b / Y: 2` should yield
two entries.  The source has no final flush: the scan only appends the open
entry when a new `ProfileName` marker arrives, so this manifest yields
exactly one entry and the trailing entry `{ProfileName: b, Y: 2}` is
silently dropped.  This evaluates `parse_metafile` at that failing input. -/
theorem parse_metafile_drops_last_entry :
    parse_metafile ["ProfileName: a", "X: 1", "ProfileName: b", "Y: 2"] =
      [[("ProfileName", "a"), ("X", "1"), ("type", "archive")]] ∧
    (parse_metafile ["ProfileName: a", "X: 1", "ProfileName: b", "Y: 2"]).length
      = 1 := by
  decide

/-- C7 counterexample: the claim says a `key: value` line whose value itself
contains colons (e.g. `DetailsFileName: a:b:c`) is parsed at the first colon
and contributes the pair to the current entry.  In the source,
`line.split(":")` followed by two-element unpacking raises on such a line and
the bare `except` skips it, so the pair is absent from the parsed entry. -/
theorem multi_colon_line_dropped_cex :
    parse_metafile
      ["ProfileName: a", "DetailsFileName: a:b:c", "ProfileName: b", "X: 1"] =
      [[("ProfileName", "a"), ("type", "archive")]] ∧
    ((parse_metafile
      ["ProfileName: a", "DetailsFileName: a:b:c", "ProfileName: b", "X: 1"]
      ).headD []).lookup "DetailsFileName" = none := by
  decide

/-- C7 amended: only a line whose colon-split has exactly two pieces (exactly
one colon) is parsed, into the trimmed piece before the colon and the trimmed
piece after it; a line with two or more colons raises in the two-element
unpacking and is silently skipped, leaving the scan state unchanged. -/
theorem manifest_single_colon_delimiter :
    ∀ (es : List Entry) (cur : Entry) (line a b : String),
      (splitOnChar ':' line = [a, b] →
        lineKV line = some (trimWS a, trimWS b)) ∧
      (3 ≤ (splitOnChar ':' line).length →
        lineKV line = none ∧ scanStep (es, cur) line = (es, cur)) := by
  intro es cur line a b
  constructor
  · intro h
    simp [lineKV, h]
  · intro h3
    have hnone : lineKV line = none := by
      unfold lineKV
      rcases hsp : splitOnChar ':' line with - | ⟨k, tl⟩
      · rfl
      rcases tl with - | ⟨v, tl2⟩
      · rfl
      rcases tl2 with - | ⟨w, tl3⟩
      · rw [hsp] at h3
        simp at h3
      · rfl
    exact ⟨hnone, by simp [scanStep, hnone]⟩

/-- C7 amended, witness: the single-colon line `DetailsFileName: a` is parsed
into its trimmed pieces, while the multi-colon line `DetailsFileName: a:b:c`
is skipped with the scan state unchanged. -/
theorem manifest_single_colon_delimiter_witness :
    (lineKV "DetailsFileName: a" = some (trimWS "DetailsFileName", trimWS " a")) ∧
    (lineKV "DetailsFileName: a:b:c" = none ∧
      scanStep ([], []) "DetailsFileName: a:b:c" = ([], [])) :=
  ⟨(manifest_single_colon_delimiter [] [] "DetailsFileName: a"
      "DetailsFileName" " a").1 (by decide),
   (manifest_single_colon_delimiter [] [] "DetailsFileName: a:b:c"
      "" "").2 (by decide)⟩

/-! ## Theorems: ephemeris exporter claim -/

/-- Helper: the exporter's write loop with any accumulator appends exactly the
formatted lines of the parameters whose values pass the write condition, in
record order. -/
theorem write_output_foldl (record : List (String × PVal))
    (acc : List String) :
    record.foldl (fun acc kv => if keepVal kv.2 then acc ++ [fmtKV kv] else acc)
      acc =
      acc ++ (record.filter (fun kv => keepVal kv.2)).map fmtKV := by
  induction record generalizing acc with
  | nil => simp
  | cons kv rest ih =>
    by_cases h : keepVal kv.2
    · simp [List.foldl, h, ih]
    · simp [List.foldl, h, ih]

/-- C8: for a supported (GUPPI/PUPPI) file the exporter emits one line per
parameter in the record's native field order, omitting a parameter exactly
when its value is numeric zero or the empty string; in particular the record
`{A: 0, B: "x", C: ""}` produces only the `B` line. -/
theorem ephemeris_omits_zero_and_empty :
    ∀ (filenm b : String) (record : List (String × PVal)),
      b = "GUPPI" ∨ b = "PUPPI" →
      ((write_ephemeris filenm b record).2.2 =
        (record.filter (fun kv => keepVal kv.2)).map fmtKV) ∧
      (write_ephemeris filenm b
        [("A", PVal.num 0), ("B", PVal.str "x"), ("C", PVal.str "")]).2.2 =
        [fmtKV ("B", PVal.str "x")] := by
  intro filenm b record hb
  constructor
  · simp only [write_ephemeris, if_pos hb, write_ephemeris_output,
      write_output_foldl, List.nil_append]
  · simp only [write_ephemeris, if_pos hb, write_ephemeris_output,
      write_output_foldl, List.nil_append]
    rfl

/-- C8 witness: the GUPPI instance of the exporter claim at the concrete
record `{A: 0, B: "x", C: ""}`. -/
theorem ephemeris_omits_zero_and_empty_witness :
    ((write_ephemeris "f.fits" "GUPPI"
      [("A", PVal.num 0), ("B", PVal.str "x"), ("C", PVal.str "")]).2.2 =
      ([("A", PVal.num 0), ("B", PVal.str "x"),
        ("C", PVal.str "")].filter (fun kv => keepVal kv.2)).map fmtKV) ∧
    (write_ephemeris "f.fits" "GUPPI"
      [("A", PVal.num 0), ("B", PVal.str "x"), ("C", PVal.str "")]).2.2 =
      [fmtKV ("B", PVal.str "x")] :=
  ephemeris_omits_zero_and_empty "f.fits" "GUPPI"
    [("A", PVal.num 0), ("B", PVal.str "x"), ("C", PVal.str "")] (Or.inl rfl)

/-! ## Theorems: CLI claim -/

/-- C9 counterexample: the claim says an argument that begins with `-` but is
not a known flag makes the CLI exit with code 1.  In `bin/nanoUpload.py`,
`parse_arguments ["-x"]` returns the empty list and `__main__` then reaches
the bare `sys.exit()`, which exits with code 0, not 1. -/
theorem unknown_flag_exit_code_cex :
    binCli ["-x"] = CliResult.exitc 0 ∧ binCli ["-x"] ≠ CliResult.exitc 1 := by
  decide

/-- C9 amended: with an empty argument list or `-h`/`--help` both scripts
exit with code 0; with an unknown `-`-prefixed argument the legacy script
(`nanoUpload.py`) exits with code 1 but `bin/nanoUpload.py` exits with code
0 after printing the error; otherwise both proceed with the arguments as
input files. -/
theorem cli_exit_codes :
    ∀ args : List String,
      ((args.length = 0 ∨ "-h" ∈ args ∨ "--help" ∈ args) →
        legacyCli args = CliResult.exitc 0 ∧ binCli args = CliResult.exitc 0) ∧
      (¬(args.length = 0 ∨ "-h" ∈ args ∨ "--help" ∈ args) →
        args.any startsDash = true →
        legacyCli args = CliResult.exitc 1 ∧ binCli args = CliResult.exitc 0) ∧
      (¬(args.length = 0 ∨ "-h" ∈ args ∨ "--help" ∈ args) →
        args.any startsDash = false →
        legacyCli args = CliResult.proceed args ∧
        binCli args = CliResult.proceed args) := by
  intro args
  refine ⟨?_, ?_, ?_⟩
  · intro h
    have h1 : parse_arguments args = [] := by
      unfold parse_arguments
      rw [if_pos h]
    constructor
    · unfold legacyCli
      rw [if_pos h]
    · unfold binCli
      rw [h1]
      rfl
  · intro h hdash
    have h1 : parse_arguments args = [] := by
      unfold parse_arguments
      rw [if_neg h, if_pos hdash]
    constructor
    · unfold legacyCli
      rw [if_neg h, if_pos hdash]
    · unfold binCli
      rw [h1]
      rfl
  · intro h hdash
    have hlen : args.length ≠ 0 := fun h0 => h (Or.inl h0)
    have hdash' : ¬(args.any startsDash = true) := by
      rw [hdash]
      exact Bool.false_ne_true
    have h1 : parse_arguments args = args := by
      unfold parse_arguments
      rw [if_neg h, if_neg hdash']
    constructor
    · unfold legacyCli
      rw [if_neg h, if_neg hdash']
    · unfold binCli
      rw [h1, if_neg hlen]

/-- C9 amended, witness: the unknown flag `-x` makes the legacy script exit 1
and `bin/nanoUpload.py` exit 0, while a plain file argument proceeds in
both. -/
theorem cli_exit_codes_witness :
    (legacyCli ["-x"] = CliResult.exitc 1 ∧ binCli ["-x"] = CliResult.exitc 0) ∧
    (legacyCli ["a.fits"] = CliResult.proceed ["a.fits"] ∧
      binCli ["a.fits"] = CliResult.proceed ["a.fits"]) :=
  ⟨(cli_exit_codes ["-x"]).2.1 (by decide) (by decide),
   (cli_exit_codes ["a.fits"]).2.2 (by decide) (by decide)⟩

/-! ## Theorems: FTP directory-creation cleanup (C5) -/

/-- C5 counterexample: the claim says the working location is restored to the
root on every exit path of the directory-creation step, including failures.
With an empty remote tree and a server that refuses `mkd` of `a/b`, the
upload raises out of the creation loop with the session left in `a`, not at
the root: the `cwd("/")` line only runs on the success path. -/
theorem ftp_root_not_restored_on_failure_cex :
    CornellFTP.upload (fun p => p == ["a", "b"]) 5 5 ⟨[], [], [], 0⟩ "f" "a/b"
      = .error ⟨[([], "a")], [], ["a"], 0⟩ ∧
    (FTPState.mk [([], "a")] [] ["a"] 0).cwd ≠ [] :=
  ⟨rfl, by decide⟩

/-- C5 amended: the session's working location is restored to the root
whenever the directory-creation step of `CornellFTP.upload` completes
successfully; on a failure the exception propagates and the session is left
where the loop stopped (the restoration is best-effort, not guaranteed). -/
theorem ftp_root_restored_on_success :
    ∀ (fail : List String → Bool) (st : FTPState) (p : String)
      (st' : FTPState),
      ensureDirectoryC fail st p = .ok st' → st'.cwd = [] := by
  intro fail st p st' h
  unfold ensureDirectoryC at h
  cases hm : mkDirLoop fail st (splitOnChar '/' p) with
  | ok s =>
    rw [hm] at h
    cases h
    rfl
  | error s =>
    rw [hm] at h
    cases h

/-- C5 amended, witness: a successful concrete run of the directory phase
ends with the working directory back at the root. -/
theorem ftp_root_restored_on_success_witness :
    (FTPState.mk [(["a"], "b"), ([], "a")] [] [] 0).cwd = [] :=
  ftp_root_restored_on_success (fun _ => false) ⟨[], [], [], 0⟩ "a/b"
    ⟨[(["a"], "b"), ([], "a")], [], [], 0⟩ rfl

/-! ## Helper lemmas about the FTP directory loop -/

/-- A directory entry contributes its name to the parent's `nlst` listing. -/
theorem dir_mem_nlstAt {st : FTPState} {p : List String} {d : String}
    (h : (p, d) ∈ st.dirs) : d ∈ st.nlstAt p := by
  unfold FTPState.nlstAt
  apply List.mem_append_left
  exact List.mem_filterMap.mpr ⟨(p, d), h, by simp⟩

/-- `nlst` listings only grow when directories and files grow. -/
theorem nlstAt_mono {st st' : FTPState} (hd : ∀ e ∈ st.dirs, e ∈ st'.dirs)
    (hf : ∀ e ∈ st.files, e ∈ st'.files) {p : List String} {f : String}
    (h : f ∈ st.nlstAt p) : f ∈ st'.nlstAt p := by
  unfold FTPState.nlstAt at h ⊢
  rcases List.mem_append.mp h with h1 | h1
  · rcases List.mem_filterMap.mp h1 with ⟨e, he, hee⟩
    exact List.mem_append_left _ (List.mem_filterMap.mpr ⟨e, hd e he, hee⟩)
  · rcases List.mem_filterMap.mp h1 with ⟨e, he, hee⟩
    exact List.mem_append_right _ (List.mem_filterMap.mpr ⟨e, hf e he, hee⟩)

/-- Readiness of a path is preserved when the directory set grows. -/
theorem pathReadyD_mono :
    ∀ (segs : List String) (ds ds' : List (List String × String))
      (base : List String),
      (∀ e ∈ ds, e ∈ ds') → pathReadyD ds base segs →
      pathReadyD ds' base segs := by
  intro segs
  induction segs with
  | nil => intro _ _ _ _ _; trivial
  | cons d rest ih =>
    intro ds ds' base hsub h
    exact ⟨hsub _ h.1, ih ds ds' (base ++ [d]) hsub h.2⟩

/-- What a successful run of the FTP directory-creation loop guarantees:
files and the transfer count are untouched, the working directory has
descended through all segments, directories only grow, every added directory
sits at a proper prefix of the created path, and afterward the whole path is
ready (every step exists). -/
theorem mkDirLoop_ok_spec (fail : List String → Bool) :
    ∀ (segs : List String) (st st' : FTPState),
      mkDirLoop fail st segs = .ok st' →
      st'.files = st.files ∧ st'.transfers = st.transfers ∧
      st'.cwd = st.cwd ++ segs ∧
      (∀ e ∈ st.dirs, e ∈ st'.dirs) ∧
      (∀ e ∈ st'.dirs, e ∈ st.dirs ∨
        ∃ i, i < segs.length ∧ e.1 = st.cwd ++ segs.take i) ∧
      pathReadyD st'.dirs st.cwd segs := by
  intro segs
  induction segs with
  | nil =>
    intro st st' h
    unfold mkDirLoop at h
    cases h
    exact ⟨rfl, rfl, by simp, fun e he => he, fun e he => Or.inl he, trivial⟩
  | cons d rest ih =>
    intro st st' h
    unfold mkDirLoop at h
    split at h
    · exact absurd h (by simp)
    · rename_i st1 heq
      split at h
      · rename_i hmem
        split at heq
        · -- d was already listed: st1 = st
          rename_i hd
          cases heq
          obtain ⟨hf, ht, hc, hlow, hup, hready⟩ := ih _ _ h
          refine ⟨hf, ht, ?_, hlow, ?_, ?_⟩
          · rw [hc]; simp
          · intro e he
            rcases hup e he with h1 | ⟨i, hi, hei⟩
            · exact Or.inl h1
            · refine Or.inr ⟨i + 1, by simpa using hi, ?_⟩
              rw [List.take_succ_cons, hei]
              simp
          · exact ⟨hlow _ hmem, hready⟩
        · -- d was absent: the interim step either raised or created it
          rename_i hd
          split at heq
          · exact absurd heq (by simp)
          · -- the segment was created: st1 = st with (st.cwd, d) prepended
            rename_i hfl
            cases heq
            obtain ⟨hf, ht, hc, hlow, hup, hready⟩ := ih _ _ h
            refine ⟨hf, ht, ?_, ?_, ?_, ?_⟩
            · rw [hc]; simp
            · intro e he
              exact hlow _ (List.mem_cons_of_mem _ he)
            · intro e he
              rcases hup e he with h1 | ⟨i, hi, hei⟩
              · rcases List.mem_cons.mp h1 with h2 | h2
                · refine Or.inr ⟨0, by simp, ?_⟩
                  rw [h2]
                  simp
                · exact Or.inl h2
              · refine Or.inr ⟨i + 1, by simpa using hi, ?_⟩
                rw [List.take_succ_cons, hei]
                simp
            · exact ⟨hlow _ (List.mem_cons_self _ _), hready⟩
      · exact absurd h (by simp)

/-- When every step of the path already exists, the creation loop descends
cleanly regardless of the failure injection, changing nothing but the
working directory. -/
theorem mkDirLoop_ready (fail : List String → Bool) :
    ∀ (segs : List String) (st : FTPState),
      pathReadyD st.dirs st.cwd segs →
      mkDirLoop fail st segs = .ok { st with cwd := st.cwd ++ segs } := by
  intro segs
  induction segs with
  | nil =>
    intro st _
    simp [mkDirLoop]
  | cons d rest ih =>
    intro st hready
    obtain ⟨hmem, hrest⟩ := hready
    unfold mkDirLoop
    rw [if_pos (dir_mem_nlstAt hmem)]
    show (if (st.cwd, d) ∈ st.dirs then
        mkDirLoop fail { st with cwd := st.cwd ++ [d] } rest
      else Except.error st) =
      Except.ok { st with cwd := st.cwd ++ (d :: rest) }
    rw [if_pos hmem, ih { st with cwd := st.cwd ++ [d] } hrest]
    simp [List.append_assoc]

/-- Membership in the `nlst` listing of the target directory is unchanged by
a state evolution that keeps the files and only adds directories at proper
prefixes of the target path. -/
theorem nlstAt_preserved {st st' : FTPState} {segs : List String}
    (hfiles : st'.files = st.files)
    (hlow : ∀ e ∈ st.dirs, e ∈ st'.dirs)
    (hup : ∀ e ∈ st'.dirs, e ∈ st.dirs ∨
      ∃ i, i < segs.length ∧ e.1 = segs.take i) :
    ∀ f, f ∈ st'.nlstAt segs ↔ f ∈ st.nlstAt segs := by
  intro f
  constructor
  · intro h
    unfold FTPState.nlstAt at h ⊢
    rcases List.mem_append.mp h with h1 | h1
    · rcases List.mem_filterMap.mp h1 with ⟨e, he, hee⟩
      rcases hup e he with h2 | ⟨i, hi, hei⟩
      · exact List.mem_append_left _ (List.mem_filterMap.mpr ⟨e, h2, hee⟩)
      · by_cases hp : e.1 = segs
        · exfalso
          rw [hp] at hei
          have : segs.length = (segs.take i).length := by rw [← hei]
          rw [List.length_take] at this
          omega
        · rw [if_neg hp] at hee
          cases hee
    · rcases List.mem_filterMap.mp h1 with ⟨e, he, hee⟩
      rw [hfiles] at he
      exact List.mem_append_right _ (List.mem_filterMap.mpr ⟨e, he, hee⟩)
  · intro h
    exact nlstAt_mono hlow (by rw [hfiles]; exact fun e he => he) h

/-- A file entry contributes its name to the `nlst` listing of its
directory. -/
theorem file_mem_nlstAt {st : FTPState} {p : List String} {f : String}
    {n : Nat} (h : (p, f, n) ∈ st.files) : f ∈ st.nlstAt p := by
  unfold FTPState.nlstAt
  apply List.mem_append_right
  exact List.mem_filterMap.mpr ⟨(p, f, n), h, by simp⟩

/-- Characterization of a completed `CornellFTP.upload`: the directory loop
succeeded in some state `stM`, and the result is either the skip branch (the
base name was listed) or the transfer branch (the file was stored and the
transfer counter bumped), in both cases with the working directory reset. -/
theorem cornell_upload_ok (fail : List String → Bool) (ss ls : Nat)
    (st : FTPState) (f p : String) (st' : FTPState) (o : UploadOutcome)
    (h : CornellFTP.upload fail ss ls st f p = .ok (st', o)) :
    ∃ stM, mkDirLoop fail st (splitOnChar '/' p) = .ok stM ∧
      ((f ∈ stM.nlstAt (splitOnChar '/' p) ∧
        st' = ⟨stM.dirs, stM.files, [], stM.transfers⟩ ∧
        o = UploadOutcome.alreadyPresent) ∨
       (f ∉ stM.nlstAt (splitOnChar '/' p) ∧
        st' = ⟨stM.dirs, (splitOnChar '/' p, f, ss) :: stM.files, [],
          stM.transfers + 1⟩ ∧
        (o = UploadOutcome.success ∨
          o = UploadOutcome.verificationMismatch))) := by
  unfold CornellFTP.upload at h
  split at h
  · exact absurd h (by simp)
  · rename_i st1 heq
    unfold ensureDirectoryC at heq
    split at heq
    · rename_i stM hM
      cases heq
      refine ⟨stM, hM, ?_⟩
      split at h
      · rename_i hmem
        left
        cases h
        exact ⟨hmem, rfl, rfl⟩
      · rename_i hmem
        right
        split at h
        · cases h
          exact ⟨hmem, rfl, Or.inl rfl⟩
        · cases h
          exact ⟨hmem, rfl, Or.inr rfl⟩
    · exact absurd heq (by simp)

/-! ## Helper lemmas about the SFTP mkdir loop -/

/-- A successful `mkdir` prepends exactly the requested (non-root) path. -/
theorem sftp_mkdir_ok {err : List String → Bool} {st s : SFTPState}
    {p : List String} (h : sftp_mkdir err st p = .ok s) :
    s = ⟨p :: st.dirs, st.files, st.transfers⟩ := by
  unfold sftp_mkdir at h
  split at h
  · cases h
  · split at h
    · cases h
    · split at h
      · split at h
        · cases h
        · cases h
          rfl
      · cases h

/-- The SFTP directory loop never touches files or the transfer counter,
only grows the directory set, and every directory it adds has length at most
the accumulated path plus the non-empty segments still to process. -/
theorem sftpMkdirLoop_spec (err : List String → Bool) :
    ∀ (segs path : List String) (st : SFTPState),
      (sftpMkdirLoop err st path segs).files = st.files ∧
      (sftpMkdirLoop err st path segs).transfers = st.transfers ∧
      (∀ e ∈ st.dirs, e ∈ (sftpMkdirLoop err st path segs).dirs) ∧
      (∀ e ∈ (sftpMkdirLoop err st path segs).dirs,
        e ∈ st.dirs ∨
          e.length ≤ path.length + (segs.filter (fun d => d ≠ "")).length) := by
  intro segs
  induction segs with
  | nil =>
    intro path st
    exact ⟨rfl, rfl, fun e he => he, fun e he => Or.inl he⟩
  | cons d rest ih =>
    intro path st
    unfold sftpMkdirLoop
    by_cases hd : d = ""
    · rw [if_pos hd]
      have hfil : ((d :: rest).filter (fun x => x ≠ "")).length =
          (rest.filter (fun x => x ≠ "")).length := by
        simp [List.filter_cons, hd]
      cases hmk : sftp_mkdir err st path with
      | ok s =>
        have hs := sftp_mkdir_ok hmk
        obtain ⟨hfi, htr, hlow, hup⟩ := ih path s
        subst hs
        refine ⟨hfi, htr, fun e he => hlow _ (List.mem_cons_of_mem _ he), ?_⟩
        intro e he
        rcases hup e he with h1 | h1
        · rcases List.mem_cons.mp h1 with h2 | h2
          · subst h2
            right
            rw [hfil]
            omega
          · exact Or.inl h2
        · right
          rw [hfil]
          exact h1
      | error s =>
        obtain ⟨hfi, htr, hlow, hup⟩ := ih path st
        refine ⟨hfi, htr, hlow, ?_⟩
        intro e he
        rcases hup e he with h1 | h1
        · exact Or.inl h1
        · right
          rw [hfil]
          exact h1
    · rw [if_neg hd]
      have hfil : ((d :: rest).filter (fun x => x ≠ "")).length =
          (rest.filter (fun x => x ≠ "")).length + 1 := by
        simp [List.filter_cons, hd]
      cases hmk : sftp_mkdir err st (path ++ [d]) with
      | ok s =>
        have hs := sftp_mkdir_ok hmk
        obtain ⟨hfi, htr, hlow, hup⟩ := ih (path ++ [d]) s
        subst hs
        refine ⟨hfi, htr, fun e he => hlow _ (List.mem_cons_of_mem _ he), ?_⟩
        intro e he
        rcases hup e he with h1 | h1
        · rcases List.mem_cons.mp h1 with h2 | h2
          · subst h2
            right
            rw [hfil]
            simp
          · exact Or.inl h2
        · right
          rw [hfil]
          simp at h1 ⊢
          omega
      | error s =>
        obtain ⟨hfi, htr, hlow, hup⟩ := ih (path ++ [d]) st
        refine ⟨hfi, htr, hlow, ?_⟩
        intro e he
        rcases hup e he with h1 | h1
        · exact Or.inl h1
        · right
          rw [hfil]
          simp at h1 ⊢
          omega

/-- `listdir` listings only grow when directories and files grow. -/
theorem listdirNames_mono {st st' : SFTPState}
    (hd : ∀ e ∈ st.dirs, e ∈ st'.dirs)
    (hf : ∀ e ∈ st.files, e ∈ st'.files) {p : List String} {f : String}
    (h : f ∈ st.listdirNames p) : f ∈ st'.listdirNames p := by
  unfold SFTPState.listdirNames at h ⊢
  rcases List.mem_append.mp h with h1 | h1
  · rcases List.mem_filterMap.mp h1 with ⟨e, he, hee⟩
    exact List.mem_append_left _ (List.mem_filterMap.mpr ⟨e, hd e he, hee⟩)
  · rcases List.mem_filterMap.mp h1 with ⟨e, he, hee⟩
    exact List.mem_append_right _ (List.mem_filterMap.mpr ⟨e, hf e he, hee⟩)

/-- A file entry contributes its name to the `listdir` listing of its
directory. -/
theorem file_mem_listdirNames {st : SFTPState} {p : List String} {f : String}
    {n : Nat} (h : (p, f, n) ∈ st.files) : f ∈ st.listdirNames p := by
  unfold SFTPState.listdirNames
  apply List.mem_append_right
  exact List.mem_filterMap.mpr ⟨(p, f, n), h, by simp⟩

/-- Membership in the `listdir` listing of the target directory is unchanged
by a state evolution that keeps the files and only adds directories of length
at most the target path's. -/
theorem listdirNames_preserved {st st' : SFTPState} {canon : List String}
    (hfiles : st'.files = st.files)
    (hlow : ∀ e ∈ st.dirs, e ∈ st'.dirs)
    (hup : ∀ e ∈ st'.dirs, e ∈ st.dirs ∨ e.length ≤ canon.length) :
    ∀ f, f ∈ st'.listdirNames canon ↔ f ∈ st.listdirNames canon := by
  intro f
  constructor
  · intro h
    unfold SFTPState.listdirNames at h ⊢
    rcases List.mem_append.mp h with h1 | h1
    · rcases List.mem_filterMap.mp h1 with ⟨e, he, hee⟩
      by_cases hp : e.dropLast = canon
      · rw [if_pos hp] at hee
        have hne : e ≠ [] := by
          intro h0
          rw [h0] at hee
          cases hee
        rcases hup e he with h2 | h2
        · refine List.mem_append_left _ (List.mem_filterMap.mpr ⟨e, h2, ?_⟩)
          rw [if_pos hp]
          exact hee
        · exfalso
          have h3 : e.dropLast.length = e.length - 1 := List.length_dropLast e
          have h4 : 1 ≤ e.length := by
            cases e with
            | nil => exact absurd rfl hne
            | cons a l => simp
          rw [hp] at h3
          omega
      · rw [if_neg hp] at hee
        cases hee
    · rcases List.mem_filterMap.mp h1 with ⟨e, he, hee⟩
      rw [hfiles] at he
      exact List.mem_append_right _ (List.mem_filterMap.mpr ⟨e, he, hee⟩)
  · intro h
    exact listdirNames_mono hlow (by rw [hfiles]; exact fun e he => he) h

/-- Characterization of a completed `UBCSFTP.upload`: after the (silently
error-swallowing) mkdir loop, `listdir` succeeded, and the result is either
the skip branch or the transfer branch. -/
theorem sftp_upload_ok (err : List String → Bool) (ss ls : Nat)
    (stU : SFTPState) (f p : String) (st' : SFTPState) (o : UploadOutcome)
    (h : UBCSFTP.upload err ss ls stU f p = .ok (st', o)) :
    (canonSegs p = [] ∨
      canonSegs p ∈ (sftpMkdirLoop err stU [] (splitOnChar '/' p)).dirs) ∧
    ((f ∈ (sftpMkdirLoop err stU [] (splitOnChar '/' p)).listdirNames
        (canonSegs p) ∧
      st' = sftpMkdirLoop err stU [] (splitOnChar '/' p) ∧
      o = UploadOutcome.alreadyPresent) ∨
     (f ∉ (sftpMkdirLoop err stU [] (splitOnChar '/' p)).listdirNames
        (canonSegs p) ∧
      st' = ⟨(sftpMkdirLoop err stU [] (splitOnChar '/' p)).dirs,
        (canonSegs p, f, ss) ::
          (sftpMkdirLoop err stU [] (splitOnChar '/' p)).files,
        (sftpMkdirLoop err stU [] (splitOnChar '/' p)).transfers + 1⟩ ∧
      (o = UploadOutcome.success ∨
        o = UploadOutcome.verificationMismatch))) := by
  unfold UBCSFTP.upload sftpUploadPhase at h
  split at h
  · rename_i hcond
    refine ⟨hcond, ?_⟩
    split at h
    · rename_i hmem
      left
      cases h
      exact ⟨hmem, rfl, rfl⟩
    · rename_i hmem
      right
      split at h
      · cases h
        exact ⟨hmem, rfl, Or.inl rfl⟩
      · cases h
        exact ⟨hmem, rfl, Or.inr rfl⟩
  · exact absurd h (by simp)

/-- Second-call behaviour of the FTP upload: from a root-positioned session
whose remote tree already holds every step of the path and lists the base
name, the upload descends cleanly, skips, and returns the state unchanged. -/
theorem cornell_second_call (fail2 : List String → Bool) (ss2 ls : Nat)
    (f p : String) (ds : List (List String × String))
    (fs : List (List String × String × Nat)) (tr : Nat)
    (hready : pathReadyD ds [] (splitOnChar '/' p))
    (hmem : f ∈ FTPState.nlstAt ⟨ds, fs, [], tr⟩ (splitOnChar '/' p)) :
    CornellFTP.upload fail2 ss2 ls ⟨ds, fs, [], tr⟩ f p =
      .ok (⟨ds, fs, [], tr⟩, UploadOutcome.alreadyPresent) := by
  have hr := mkDirLoop_ready fail2 (splitOnChar '/' p) ⟨ds, fs, [], tr⟩ hready
  unfold CornellFTP.upload ensureDirectoryC
  rw [hr]
  show (if f ∈ FTPState.nlstAt ⟨ds, fs, [], tr⟩ (splitOnChar '/' p) then
      Except.ok ((⟨ds, fs, [], tr⟩ : FTPState), UploadOutcome.alreadyPresent)
    else if ss2 = ls then
      Except.ok ((⟨ds, (splitOnChar '/' p, f, ss2) :: fs, [], tr + 1⟩ :
        FTPState), UploadOutcome.success)
    else
      Except.ok ((⟨ds, (splitOnChar '/' p, f, ss2) :: fs, [], tr + 1⟩ :
        FTPState), UploadOutcome.verificationMismatch)) =
    Except.ok ((⟨ds, fs, [], tr⟩ : FTPState), UploadOutcome.alreadyPresent)
  rw [if_pos hmem]

/-- Second-call behaviour of the SFTP upload: when the target directory is
already present and lists the base name, the upload skips; the mkdir loop may
still grow directories, but files and the transfer count are unchanged. -/
theorem sftp_second_call (err2 : List String → Bool) (ss2 ls : Nat)
    (f p : String) (st1 : SFTPState)
    (hcond : canonSegs p = [] ∨ canonSegs p ∈ st1.dirs)
    (hmem : f ∈ st1.listdirNames (canonSegs p)) :
    ∃ st2, UBCSFTP.upload err2 ss2 ls st1 f p =
        .ok (st2, UploadOutcome.alreadyPresent) ∧
      st2.files = st1.files ∧ st2.transfers = st1.transfers := by
  obtain ⟨hfi, htr, hlow, hup⟩ := sftpMkdirLoop_spec err2 (splitOnChar '/' p) [] st1
  have hcond2 : canonSegs p = [] ∨
      canonSegs p ∈ (sftpMkdirLoop err2 st1 [] (splitOnChar '/' p)).dirs := by
    rcases hcond with h | h
    · exact Or.inl h
    · exact Or.inr (hlow _ h)
  have hmem2 : f ∈ (sftpMkdirLoop err2 st1 []
      (splitOnChar '/' p)).listdirNames (canonSegs p) :=
    listdirNames_mono hlow (by rw [hfi]; exact fun e he => he) hmem
  refine ⟨sftpMkdirLoop err2 st1 [] (splitOnChar '/' p), ?_, hfi, htr⟩
  unfold UBCSFTP.upload sftpUploadPhase
  rw [if_pos hcond2, if_pos hmem2]

/-! ## Theorems: idempotent upload (C1) -/

/-- C1: on both stores, when the remote directory listing already holds an
entry with the file's base name, a completed upload reports it as already
present and moves no bytes (files and the transfer count are unchanged); and
after any completed upload from a root-positioned session, an immediately
repeated upload of the same file to the same directory reports
already-present and transfers nothing more, so two successive calls move
exactly one byte stream (one transfer when the name was initially absent,
zero when it was already present). -/
theorem upload_idempotent_no_retransfer :
    ∀ (fail fail2 : List String → Bool) (ss ss2 ls : Nat) (f p : String),
      (∀ (st st' : FTPState) (o : UploadOutcome),
        CornellFTP.upload fail ss ls st f p = .ok (st', o) →
        f ∈ st.nlstAt (splitOnChar '/' p) →
        o = UploadOutcome.alreadyPresent ∧ st'.files = st.files ∧
          st'.transfers = st.transfers) ∧
      (∀ (st st1 : FTPState) (o1 : UploadOutcome),
        st.cwd = [] →
        CornellFTP.upload fail ss ls st f p = .ok (st1, o1) →
        st1.transfers = st.transfers +
          (if f ∈ st.nlstAt (splitOnChar '/' p) then 0 else 1) ∧
        CornellFTP.upload fail2 ss2 ls st1 f p =
          .ok (st1, UploadOutcome.alreadyPresent)) ∧
      (∀ (stU st' : SFTPState) (o : UploadOutcome),
        UBCSFTP.upload fail ss ls stU f p = .ok (st', o) →
        f ∈ stU.listdirNames (canonSegs p) →
        o = UploadOutcome.alreadyPresent ∧ st'.files = stU.files ∧
          st'.transfers = stU.transfers) ∧
      (∀ (stU st1 : SFTPState) (o1 : UploadOutcome),
        UBCSFTP.upload fail ss ls stU f p = .ok (st1, o1) →
        st1.transfers = stU.transfers +
          (if f ∈ stU.listdirNames (canonSegs p) then 0 else 1) ∧
        ∃ st2, UBCSFTP.upload fail2 ss2 ls st1 f p =
            .ok (st2, UploadOutcome.alreadyPresent) ∧
          st2.files = st1.files ∧ st2.transfers = st1.transfers) := by
  intro fail fail2 ss ss2 ls f p
  refine ⟨?_, ?_, ?_, ?_⟩
  · -- FTP store, already-present case
    intro st st' o h hmem
    obtain ⟨stM, hM, hcase⟩ := cornell_upload_ok fail ss ls st f p st' o h
    obtain ⟨hf, ht, hc, hlow, hup, hready⟩ := mkDirLoop_ok_spec fail _ st stM hM
    have hmem' : f ∈ stM.nlstAt (splitOnChar '/' p) :=
      nlstAt_mono hlow (by rw [hf]; exact fun e he => he) hmem
    rcases hcase with ⟨_, hst, ho⟩ | ⟨hnot, _, _⟩
    · exact ⟨ho, by rw [hst]; exact hf, by rw [hst]; exact ht⟩
    · exact absurd hmem' hnot
  · -- FTP store, two successive calls
    intro st st1 o1 hcwd h
    obtain ⟨stM, hM, hcase⟩ := cornell_upload_ok fail ss ls st f p st1 o1 h
    obtain ⟨hf, ht, hc, hlow, hup, hready⟩ := mkDirLoop_ok_spec fail _ st stM hM
    have hupz : ∀ e ∈ stM.dirs, e ∈ st.dirs ∨
        ∃ i, i < (splitOnChar '/' p).length ∧
          e.1 = (splitOnChar '/' p).take i := by
      intro e he
      rcases hup e he with h1 | ⟨i, hi, hei⟩
      · exact Or.inl h1
      · refine Or.inr ⟨i, hi, ?_⟩
        rw [hcwd] at hei
        simpa using hei
    have hiff := nlstAt_preserved hf hlow hupz
    have hready0 : pathReadyD stM.dirs [] (splitOnChar '/' p) := by
      rw [hcwd] at hready
      exact hready
    rcases hcase with ⟨hmem, hst, ho⟩ | ⟨hnot, hst, ho⟩
    · have hmem0 : f ∈ st.nlstAt (splitOnChar '/' p) := (hiff f).mp hmem
      constructor
      · rw [hst, if_pos hmem0]
        simpa using ht
      · rw [hst]
        exact cornell_second_call fail2 ss2 ls f p stM.dirs stM.files
          stM.transfers hready0 hmem
    · have hnot0 : f ∉ st.nlstAt (splitOnChar '/' p) :=
        fun hm => hnot ((hiff f).mpr hm)
      constructor
      · rw [hst, if_neg hnot0]
        simp [ht]
      · rw [hst]
        exact cornell_second_call fail2 ss2 ls f p stM.dirs
          ((splitOnChar '/' p, f, ss) :: stM.files) (stM.transfers + 1)
          hready0 (file_mem_nlstAt (List.mem_cons_self _ _))
  · -- SFTP store, already-present case
    intro stU st' o h hmem
    obtain ⟨hcond, hcase⟩ := sftp_upload_ok fail ss ls stU f p st' o h
    obtain ⟨hfi, htr, hlow, hup⟩ :=
      sftpMkdirLoop_spec fail (splitOnChar '/' p) [] stU
    have hmem' : f ∈ (sftpMkdirLoop fail stU []
        (splitOnChar '/' p)).listdirNames (canonSegs p) :=
      listdirNames_mono hlow (by rw [hfi]; exact fun e he => he) hmem
    rcases hcase with ⟨_, hst, ho⟩ | ⟨hnot, _, _⟩
    · exact ⟨ho, by rw [hst]; exact hfi, by rw [hst]; exact htr⟩
    · exact absurd hmem' hnot
  · -- SFTP store, two successive calls
    intro stU st1 o1 h
    obtain ⟨hcond, hcase⟩ := sftp_upload_ok fail ss ls stU f p st1 o1 h
    obtain ⟨hfi, htr, hlow, hup⟩ :=
      sftpMkdirLoop_spec fail (splitOnChar '/' p) [] stU
    have hup' : ∀ e ∈ (sftpMkdirLoop fail stU [] (splitOnChar '/' p)).dirs,
        e ∈ stU.dirs ∨ e.length ≤ (canonSegs p).length := by
      intro e he
      rcases hup e he with h1 | h1
      · exact Or.inl h1
      · right
        simpa [canonSegs] using h1
    have hiff := listdirNames_preserved hfi hlow hup'
    rcases hcase with ⟨hmem, hst, ho⟩ | ⟨hnot, hst, ho⟩
    · have hmem0 : f ∈ stU.listdirNames (canonSegs p) := (hiff f).mp hmem
      constructor
      · rw [hst, if_pos hmem0]
        simpa using htr
      · have hcond1 : canonSegs p = [] ∨ canonSegs p ∈ st1.dirs := by
          rw [hst]
          exact hcond
        have hmem1 : f ∈ st1.listdirNames (canonSegs p) := by
          rw [hst]
          exact hmem
        exact sftp_second_call fail2 ss2 ls f p st1 hcond1 hmem1
    · have hnot0 : f ∉ stU.listdirNames (canonSegs p) :=
        fun hm => hnot ((hiff f).mpr hm)
      constructor
      · rw [hst, if_neg hnot0]
        simp [htr]
      · have hcond1 : canonSegs p = [] ∨ canonSegs p ∈ st1.dirs := by
          rw [hst]
          exact hcond
        have hmem1 : f ∈ st1.listdirNames (canonSegs p) := by
          rw [hst]
          exact file_mem_listdirNames (List.mem_cons_self _ _)
        exact sftp_second_call fail2 ss2 ls f p st1 hcond1 hmem1

/-- C1 witness: a concrete first upload of `x` into `a/b` on each store
(empty remote trees, matching sizes) performs one transfer, and the repeated
call — even under a failure injection on every creation — reports
already-present without transferring again. -/
theorem upload_idempotent_no_retransfer_witness :
    ((⟨[(["a"], "b"), ([], "a")], [(["a", "b"], "x", 7)], [], 1⟩ :
        FTPState).transfers =
      (⟨[], [], [], 0⟩ : FTPState).transfers +
        (if "x" ∈ (⟨[], [], [], 0⟩ : FTPState).nlstAt (splitOnChar '/' "a/b")
          then 0 else 1) ∧
      CornellFTP.upload (fun _ => true) 9 7
        ⟨[(["a"], "b"), ([], "a")], [(["a", "b"], "x", 7)], [], 1⟩ "x" "a/b" =
        .ok (⟨[(["a"], "b"), ([], "a")], [(["a", "b"], "x", 7)], [], 1⟩,
          UploadOutcome.alreadyPresent)) ∧
    ((⟨[["a", "b"], ["a"]], [(["a", "b"], "x", 7)], 1⟩ : SFTPState).transfers =
      (⟨[], [], 0⟩ : SFTPState).transfers +
        (if "x" ∈ (⟨[], [], 0⟩ : SFTPState).listdirNames (canonSegs "a/b")
          then 0 else 1) ∧
      ∃ st2, UBCSFTP.upload (fun _ => true) 9 7
          ⟨[["a", "b"], ["a"]], [(["a", "b"], "x", 7)], 1⟩ "x" "a/b" =
          .ok (st2, UploadOutcome.alreadyPresent) ∧
        st2.files =
          (⟨[["a", "b"], ["a"]], [(["a", "b"], "x", 7)], 1⟩ :
            SFTPState).files ∧
        st2.transfers =
          (⟨[["a", "b"], ["a"]], [(["a", "b"], "x", 7)], 1⟩ :
            SFTPState).transfers) :=
  ⟨(upload_idempotent_no_retransfer (fun _ => false) (fun _ => true) 7 9 7
      "x" "a/b").2.1 ⟨[], [], [], 0⟩
      ⟨[(["a"], "b"), ([], "a")], [(["a", "b"], "x", 7)], [], 1⟩
      UploadOutcome.success rfl rfl,
   (upload_idempotent_no_retransfer (fun _ => false) (fun _ => true) 7 9 7
      "x" "a/b").2.2.2 ⟨[], [], 0⟩
      ⟨[["a", "b"], ["a"]], [(["a", "b"], "x", 7)], 1⟩
      UploadOutcome.success rfl⟩

/-! ## Theorems: SFTP mkdir error swallowing (C10) -/

/-- Under an injection that makes every creation fail, `mkdir` always
raises. -/
theorem sftp_mkdir_allfail (st : SFTPState) (p : List String) :
    sftp_mkdir (fun _ => true) st p = .error SFTPErr.mkdirErr := by
  unfold sftp_mkdir
  split_ifs with h1 h2 h3 h4
  · rfl
  · rfl
  · rfl
  · simp at h4
  · rfl

/-- Under an injection that makes every creation fail, the whole mkdir loop
silently discards each error and returns the state unchanged. -/
theorem sftpMkdirLoop_allfail :
    ∀ (segs path : List String) (st : SFTPState),
      sftpMkdirLoop (fun _ => true) st path segs = st := by
  intro segs
  induction segs with
  | nil => intro path st; rfl
  | cons d rest ih =>
    intro path st
    unfold sftpMkdirLoop
    rw [sftp_mkdir_allfail]
    exact ih _ st

/-- C10: in `UBCSFTP.upload` every `IOError` raised by `mkdir` on any path
segment is caught and discarded by the bare `except IOError: pass`: the only
error the upload can propagate comes from the subsequent `listdir`, and even
when every `mkdir` genuinely fails (e.g. permission denied) the loop
completes as if it had succeeded, leaving the state unchanged, and the
listdir/transfer step is attempted regardless. -/
theorem sftp_mkdir_errors_swallowed :
    ∀ (err : List String → Bool) (ss ls : Nat) (st : SFTPState)
      (f p : String),
      (∀ (e : SFTPErr) (st' : SFTPState),
        UBCSFTP.upload err ss ls st f p = .error (e, st') →
        e = SFTPErr.listdirErr) ∧
      UBCSFTP.upload (fun _ => true) ss ls st f p =
        sftpUploadPhase ss ls st f p := by
  intro err ss ls st f p
  constructor
  · intro e st' h
    unfold UBCSFTP.upload sftpUploadPhase at h
    split at h
    · split at h
      · cases h
      · split at h
        · cases h
        · cases h
    · cases h
      rfl
  · unfold UBCSFTP.upload
    rw [sftpMkdirLoop_allfail]

/-- C10 witness: with every `mkdir` failing on an empty remote tree, the
upload of `f` to `a/b` still reaches `listdir`, which is what raises (the
propagated error is the listdir one), on the unchanged state. -/
theorem sftp_mkdir_errors_swallowed_witness :
    SFTPErr.listdirErr = SFTPErr.listdirErr ∧
    UBCSFTP.upload (fun _ => true) 1 1 ⟨[], [], 0⟩ "f" "a/b" =
      sftpUploadPhase 1 1 ⟨[], [], 0⟩ "f" "a/b" :=
  ⟨(sftp_mkdir_errors_swallowed (fun _ => true) 1 1 ⟨[], [], 0⟩ "f" "a/b").1
      SFTPErr.listdirErr ⟨[], [], 0⟩ rfl,
   (sftp_mkdir_errors_swallowed (fun _ => true) 1 1 ⟨[], [], 0⟩ "f" "a/b").2⟩

/-! ## Theorems: batch orchestration (C2, C4, C6) -/

/-- A guarded upload attempt records the targeted site and file name
regardless of whether the transport completed or raised. -/
theorem tryUp_attempt {σ : Type} (tag : SiteTag)
    (up : σ → String → String → Except σ σ) (st : σ) (f pth : String) :
    (tryUp tag up st f pth).2.site = tag ∧
      (tryUp tag up st f pth).2.file = f := by
  unfold tryUp
  cases up st f pth <;> exact ⟨rfl, rfl⟩

/-- A site pass attempts exactly the given items, in order, whatever the
transport does (succeed or raise) at each of them. -/
theorem sitePass_trace {σ : Type} (tag : SiteTag)
    (up : σ → String → String → Except σ σ) :
    ∀ (items : List (String × String)) (st : σ),
      (sitePass tag up st items).2.map (fun a => (a.site, a.file)) =
        items.map (fun it => (tag, it.1)) := by
  intro items
  induction items with
  | nil => intro st; rfl
  | cons it rest ih =>
    intro st
    obtain ⟨f, pth⟩ := it
    simp only [sitePass, List.map_cons]
    rw [ih, (tryUp_attempt tag up st f pth).1, (tryUp_attempt tag up st f pth).2]

/-- A site pass targets its own site at every attempt. -/
theorem sitePass_sites {σ : Type} (tag : SiteTag)
    (up : σ → String → String → Except σ σ) :
    ∀ (items : List (String × String)) (st : σ),
      (sitePass tag up st items).2.map Attempt.site =
        List.replicate items.length tag := by
  intro items
  induction items with
  | nil => intro st; rfl
  | cons it rest ih =>
    intro st
    obtain ⟨f, pth⟩ := it
    simp only [sitePass, List.map_cons, List.length_cons,
      List.replicate_succ]
    rw [ih, (tryUp_attempt tag up st f pth).1]

/-- The attempts one legacy-loop file contributes, as (site, file) pairs:
the file against both stores, then its par file against both stores when an
ephemeris was written. -/
theorem legacyFileAttempts_trace {σC σU : Type}
    (upC : σC → String → String → Except σC σC)
    (upU : σU → String → String → Except σU σU) (sC : σC) (sU : σU)
    (f cpath upath : String) :
    ∀ wp : Option String,
      (legacyFileAttempts upC upU sC sU f cpath upath wp).2.2.map
          (fun a => (a.site, a.file)) =
        match wp with
        | some pn => [(SiteTag.cornell, f), (SiteTag.ubc, f),
            (SiteTag.cornell, pn), (SiteTag.ubc, pn)]
        | none => [(SiteTag.cornell, f), (SiteTag.ubc, f)] := by
  intro wp
  cases wp with
  | none =>
    simp only [legacyFileAttempts, List.map_cons, List.map_nil]
    rw [(tryUp_attempt SiteTag.cornell upC sC f cpath).1,
      (tryUp_attempt SiteTag.cornell upC sC f cpath).2,
      (tryUp_attempt SiteTag.ubc upU sU f upath).1,
      (tryUp_attempt SiteTag.ubc upU sU f upath).2]
  | some pn =>
    simp only [legacyFileAttempts, List.map_cons, List.map_nil]
    rw [(tryUp_attempt SiteTag.cornell upC sC f cpath).1,
      (tryUp_attempt SiteTag.cornell upC sC f cpath).2,
      (tryUp_attempt SiteTag.ubc upU sU f upath).1,
      (tryUp_attempt SiteTag.ubc upU sU f upath).2,
      (tryUp_attempt SiteTag.cornell upC
        (tryUp SiteTag.cornell upC sC f cpath).1 pn cpath).1,
      (tryUp_attempt SiteTag.cornell upC
        (tryUp SiteTag.cornell upC sC f cpath).1 pn cpath).2,
      (tryUp_attempt SiteTag.ubc upU
        (tryUp SiteTag.ubc upU sU f upath).1 pn upath).1,
      (tryUp_attempt SiteTag.ubc upU
        (tryUp SiteTag.ubc upU sU f upath).1 pn upath).2]

/-- A recognized backend always resolves in the legacy path derivation. -/
theorem get_remote_paths_recognized (djcl : Int → Int → Int) (m : FileMeta)
    (h : m.backend = "GUPPI" ∨ m.backend = "PUPPI" ∨ m.backend = "xASP") :
    ∃ cp up2, get_remote_paths djcl m = .ok (cp, up2) := by
  unfold get_remote_paths
  rcases h with h | h | h
  · rw [if_pos (Or.inl h)]
    exact ⟨_, _, rfl⟩
  · rw [if_pos (Or.inr h)]
    exact ⟨_, _, rfl⟩
  · have hng : ¬(m.backend = "GUPPI" ∨ m.backend = "PUPPI") := by
      rw [h]
      decide
    rw [if_neg hng, if_pos h]
    exact ⟨_, _, rfl⟩

/-- GUPPI/PUPPI files get a par companion named by replacing `.fits` with
`.par`. -/
theorem legacyPar_supported (env : String → FileMeta)
    (recOf : String → List (String × PVal)) (f : String)
    (h : (env f).backend = "GUPPI" ∨ (env f).backend = "PUPPI") :
    legacyPar env recOf f = some (strReplace f ".fits" ".par") := by
  unfold legacyPar write_ephemeris
  rw [if_pos h]
  rfl

/-- Files from any other backend get no par companion. -/
theorem legacyPar_unsupported (env : String → FileMeta)
    (recOf : String → List (String × PVal)) (f : String)
    (h : ¬((env f).backend = "GUPPI" ∨ (env f).backend = "PUPPI")) :
    legacyPar env recOf f = none := by
  unfold legacyPar write_ephemeris
  rw [if_neg h]
  rfl

/-- When every file has a recognized backend, the legacy loop never exits
and attempts exactly the expected (site, file) sequence, regardless of which
transport calls raise. -/
theorem legacy_trace_complete {σC σU : Type} (djcl : Int → Int → Int)
    (env : String → FileMeta) (recOf : String → List (String × PVal))
    (upC : σC → String → String → Except σC σC)
    (upU : σU → String → String → Except σU σU) :
    ∀ (files : List String),
      (∀ f ∈ files, (env f).backend = "GUPPI" ∨ (env f).backend = "PUPPI" ∨
        (env f).backend = "xASP") →
      ∀ (sC : σC) (sU : σU),
        (legacyMain djcl env recOf upC upU sC sU files).exited = none ∧
        (legacyMain djcl env recOf upC upU sC sU files).trace.map
            (fun a => (a.site, a.file)) = legacyExpectedTrace env files := by
  intro files
  induction files with
  | nil =>
    intro _ sC sU
    exact ⟨rfl, rfl⟩
  | cons f rest ih =>
    intro hrec sC sU
    have hf := hrec f (List.mem_cons_self _ _)
    obtain ⟨cp, up2, hg⟩ := get_remote_paths_recognized djcl (env f) hf
    have hrec' : ∀ g ∈ rest, (env g).backend = "GUPPI" ∨
        (env g).backend = "PUPPI" ∨ (env g).backend = "xASP" :=
      fun g hg2 => hrec g (List.mem_cons_of_mem _ hg2)
    simp only [legacyMain, hg]
    constructor
    · exact (ih hrec' _ _).1
    · rw [List.map_append, legacyFileAttempts_trace, (ih hrec' _ _).2]
      by_cases hgp : (env f).backend = "GUPPI" ∨ (env f).backend = "PUPPI"
      · rw [legacyPar_supported env recOf f hgp]
        simp only [legacyExpectedTrace]
        rw [if_pos hgp]
      · rw [legacyPar_unsupported env recOf f hgp]
        simp only [legacyExpectedTrace]
        rw [if_neg hgp]

/-- C2: a transport failure on one (file, store) pair never aborts the
batch.  In `bin/nanoUpload.py`, whatever the two transports do (complete or
raise, at any subset of calls), the Cornell pass attempts every work item
and the UBC pass attempts every work item, in order.  In the legacy
`nanoUpload.py` loop, when every file has a recognized backend, the run
never exits and attempts every file (and its par companion for GUPPI/PUPPI
files) against both stores, again whatever the transports do. -/
theorem transport_failures_do_not_abort :
    ∀ (σC σU : Type) (upC : σC → String → String → Except σC σC)
      (upU : σU → String → String → Except σU σU) (sC : σC) (sU : σU)
      (uploads : List UploadItem) (djcl : Int → Int → Int)
      (env : String → FileMeta) (recOf : String → List (String × PVal))
      (files : List String),
      ((binOrchestrate upC upU sC sU uploads).2.2.map
          (fun a => (a.site, a.file)) =
        uploads.map (fun u => (SiteTag.cornell, u.1)) ++
          uploads.map (fun u => (SiteTag.ubc, u.1))) ∧
      ((∀ f ∈ files, (env f).backend = "GUPPI" ∨ (env f).backend = "PUPPI" ∨
          (env f).backend = "xASP") →
        (legacyMain djcl env recOf upC upU sC sU files).exited = none ∧
        (legacyMain djcl env recOf upC upU sC sU files).trace.map
          (fun a => (a.site, a.file)) = legacyExpectedTrace env files) := by
  intro σC σU upC upU sC sU uploads djcl env recOf files
  constructor
  · simp only [binOrchestrate]
    rw [List.map_append, sitePass_trace, sitePass_trace, List.map_map,
      List.map_map]
    rfl
  · intro hrec
    exact legacy_trace_complete djcl env recOf upC upU files hrec sC sU

/-- C2 witness: with a transport that raises on `a.fits` at Cornell, both
passes of `bin/nanoUpload.py` still attempt both items, and a legacy run
over two GUPPI files attempts all files and par companions on both stores. -/
theorem transport_failures_do_not_abort_witness :
    ((binOrchestrate
        (fun (s : Unit) f _ => if f = "a.fits" then Except.error s
          else Except.ok s)
        (fun (s : Unit) _ _ => Except.ok s) () ()
        [("a.fits", "pc", "pu"), ("b.fits", "pc2", "pu2")]).2.2.map
        (fun a => (a.site, a.file)) =
      [("a.fits", "pc", "pu"), ("b.fits", "pc2", "pu2")].map
          (fun u => (SiteTag.cornell, u.1)) ++
        [("a.fits", "pc", "pu"), ("b.fits", "pc2", "pu2")].map
          (fun u => (SiteTag.ubc, u.1))) ∧
    ((legacyMain (fun _ _ => 2013)
        (fun _ => ⟨"GUPPI", "J1", "2013-01-01", 56000, 0⟩) (fun _ => [])
        (fun (s : Unit) f _ => if f = "a.fits" then Except.error s
          else Except.ok s)
        (fun (s : Unit) _ _ => Except.ok s) () ()
        ["f1.fits", "f2.fits"]).exited = none ∧
      (legacyMain (fun _ _ => 2013)
        (fun _ => ⟨"GUPPI", "J1", "2013-01-01", 56000, 0⟩) (fun _ => [])
        (fun (s : Unit) f _ => if f = "a.fits" then Except.error s
          else Except.ok s)
        (fun (s : Unit) _ _ => Except.ok s) () ()
        ["f1.fits", "f2.fits"]).trace.map (fun a => (a.site, a.file)) =
      legacyExpectedTrace (fun _ => ⟨"GUPPI", "J1", "2013-01-01", 56000, 0⟩)
        ["f1.fits", "f2.fits"]) :=
  ⟨(transport_failures_do_not_abort Unit Unit
      (fun (s : Unit) f _ => if f = "a.fits" then Except.error s
        else Except.ok s)
      (fun (s : Unit) _ _ => Except.ok s) () ()
      [("a.fits", "pc", "pu"), ("b.fits", "pc2", "pu2")] (fun _ _ => 2013)
      (fun _ => ⟨"GUPPI", "J1", "2013-01-01", 56000, 0⟩) (fun _ => [])
      ["f1.fits", "f2.fits"]).1,
   (transport_failures_do_not_abort Unit Unit
      (fun (s : Unit) f _ => if f = "a.fits" then Except.error s
        else Except.ok s)
      (fun (s : Unit) _ _ => Except.ok s) () ()
      [("a.fits", "pc", "pu"), ("b.fits", "pc2", "pu2")] (fun _ _ => 2013)
      (fun _ => ⟨"GUPPI", "J1", "2013-01-01", 56000, 0⟩) (fun _ => [])
      ["f1.fits", "f2.fits"]).2 (by decide)⟩

/-- C4 counterexample: the claim says every work item is uploaded to site A
(Cornell) before any work item is uploaded to site B (UBC).  The legacy
`nanoUpload.py` loop — one of the claim's cited code locations — interleaves
the two sites per file: on two xASP inputs its attempt sequence is Cornell,
UBC, Cornell, UBC, so the UBC attempt for `f1` (index 1) precedes the
Cornell attempt for `f2` (index 2). -/
theorem legacy_interleaves_sites_cex :
    (legacyMain (fun _ _ => 2013)
        (fun _ => ⟨"xASP", "J1", "2013-01-01", 56000, 0⟩) (fun _ => [])
        (fun (s : Unit) _ _ => Except.ok s)
        (fun (s : Unit) _ _ => Except.ok s) () ()
        ["f1", "f2"]).trace.map (fun a => (a.site, a.file)) =
      [(SiteTag.cornell, "f1"), (SiteTag.ubc, "f1"),
       (SiteTag.cornell, "f2"), (SiteTag.ubc, "f2")] ∧
    [(SiteTag.cornell, "f1"), (SiteTag.ubc, "f1"),
      (SiteTag.cornell, "f2"), (SiteTag.ubc, "f2")][1]? =
      some (SiteTag.ubc, "f1") ∧
    [(SiteTag.cornell, "f1"), (SiteTag.ubc, "f1"),
      (SiteTag.cornell, "f2"), (SiteTag.ubc, "f2")][2]? =
      some (SiteTag.cornell, "f2") := by
  decide

/-- C4 amended: the current orchestrator (`bin/nanoUpload.py`) does perform
one full pass per store: its attempt trace is all-Cornell attempts (one per
work item, in order) followed by all-UBC attempts, for every work list and
whatever the transports do; the legacy `nanoUpload.py` script instead
interleaves the two sites within each file. -/
theorem cornell_pass_before_ubc_pass :
    ∀ (σC σU : Type) (upC : σC → String → String → Except σC σC)
      (upU : σU → String → String → Except σU σU) (sC : σC) (sU : σU)
      (uploads : List UploadItem),
      (binOrchestrate upC upU sC sU uploads).2.2.map Attempt.site =
        List.replicate uploads.length SiteTag.cornell ++
          List.replicate uploads.length SiteTag.ubc := by
  intro σC σU upC upU sC sU uploads
  simp only [binOrchestrate]
  rw [List.map_append, sitePass_sites, sitePass_sites, List.length_map,
    List.length_map]

/-- C6 counterexample: the claim says the batch is never aborted (the
process never exits) because one file had an unrecognized backend.  In the
legacy `nanoUpload.py` — one of the claim's cited code locations —
`get_remote_paths` calls `exit(1)` on an unrecognized backend: with
`bad.fits` (backend `FOO`) first in the batch, the run exits with code 1,
no upload is attempted, and `good.fits` is never processed. -/
theorem legacy_exit_on_unrecognized_backend_cex :
    (legacyMain (fun _ _ => 2013)
        (fun f => if f = "bad.fits" then ⟨"FOO", "J1", "2013-01-01", 56000, 0⟩
          else ⟨"GUPPI", "J1", "2013-01-01", 56000, 0⟩)
        (fun _ => []) (fun (s : Unit) _ _ => Except.ok s)
        (fun (s : Unit) _ _ => Except.ok s) () ()
        ["bad.fits", "good.fits"]).exited = some 1 ∧
    (legacyMain (fun _ _ => 2013)
        (fun f => if f = "bad.fits" then ⟨"FOO", "J1", "2013-01-01", 56000, 0⟩
          else ⟨"GUPPI", "J1", "2013-01-01", 56000, 0⟩)
        (fun _ => []) (fun (s : Unit) _ _ => Except.ok s)
        (fun (s : Unit) _ _ => Except.ok s) () ()
        ["bad.fits", "good.fits"]).trace = [] := by
  decide

/-- Skipped files contribute nothing and the pre-pass continues. -/
theorem binBuildUploads_cons_skip (djcl : Int → Int → Int)
    (env : String → FileKind) (bad : String)
    (hskip : binPerFile djcl env bad = .ok []) :
    ∀ l, binBuildUploads djcl env (bad :: l) = binBuildUploads djcl env l := by
  intro l
  simp only [binBuildUploads, hskip]
  cases h : binBuildUploads djcl env l with
  | error e => rfl
  | ok more => simp

/-- A skipped file anywhere in the batch leaves the built upload list (and
any crash behaviour of the rest) exactly as if the file were absent. -/
theorem binBuildUploads_skip_middle (djcl : Int → Int → Int)
    (env : String → FileKind) (bad : String)
    (hskip : binPerFile djcl env bad = .ok []) :
    ∀ l1 l2, binBuildUploads djcl env (l1 ++ bad :: l2) =
      binBuildUploads djcl env (l1 ++ l2) := by
  intro l1 l2
  induction l1 with
  | nil => simpa using binBuildUploads_cons_skip djcl env bad hskip l2
  | cons g l1 ih =>
    simp only [List.cons_append, binBuildUploads, List.append_eq]
    rw [ih]

/-- C6 amended: in `bin/nanoUpload.py` a FITS input whose backend matches
none of the recognized kinds resolves to no backend, contributes no upload
item, and the batch continues exactly as if the file were absent — the
pre-pass never exits.  In the legacy `nanoUpload.py`, by contrast, an
unrecognized backend makes `get_remote_paths` exit the whole process with
code 1. -/
theorem unrecognized_backend_skipped :
    ∀ (djcl : Int → Int → Int) (env : String → FileKind) (m : FileMeta)
      (bad : String) (l1 l2 : List String),
      env bad = FileKind.fits m →
      m.backend ≠ "GUPPI2" → m.backend ≠ "PUPPI" → m.backend ≠ "xASP" →
      binPerFile djcl env bad = .ok [] ∧
      binBuildUploads djcl env (l1 ++ bad :: l2) =
        binBuildUploads djcl env (l1 ++ l2) ∧
      ∀ (σC σU : Type) (envL : String → FileMeta)
        (recOf : String → List (String × PVal))
        (upC : σC → String → String → Except σC σC)
        (upU : σU → String → String → Except σU σU) (sC : σC) (sU : σU)
        (f : String) (rest : List String),
        (envL f).backend ≠ "GUPPI" → (envL f).backend ≠ "PUPPI" →
        (envL f).backend ≠ "xASP" →
        (legacyMain djcl envL recOf upC upU sC sU (f :: rest)).exited =
          some 1 := by
  intro djcl env m bad l1 l2 henv h1 h2 h3
  have hpa : parse_archive djcl m = (m.srcName, none, none) := by
    unfold parse_archive
    rw [if_neg h1, if_neg h2, if_neg h3]
  have hskip : binPerFile djcl env bad = .ok [] := by
    simp only [binPerFile, henv, hpa]
  refine ⟨hskip, binBuildUploads_skip_middle djcl env bad hskip l1 l2, ?_⟩
  intro σC σU envL recOf upC upU sC sU f rest hn1 hn2 hn3
  have hg : get_remote_paths djcl (envL f) = .error 1 := by
    unfold get_remote_paths
    rw [if_neg ?_, if_neg hn3]
    · rintro (h | h)
      · exact hn1 h
      · exact hn2 h
  simp only [legacyMain, hg]

/-- C6 amended, witness: `bad.fits` with backend `FOO` contributes nothing
in `bin/nanoUpload.py` and the batch over `x`, `bad.fits`, `y` equals the
batch over `x`, `y`; a legacy run whose first file has backend `FOO` exits
with code 1. -/
theorem unrecognized_backend_skipped_witness :
    binPerFile (fun _ _ => 2013)
      (fun f => if f = "bad.fits" then
        FileKind.fits ⟨"FOO", "J1", "2013-01-01", 56000, 0⟩
      else FileKind.unknown) "bad.fits" = .ok [] ∧
    binBuildUploads (fun _ _ => 2013)
      (fun f => if f = "bad.fits" then
        FileKind.fits ⟨"FOO", "J1", "2013-01-01", 56000, 0⟩
      else FileKind.unknown) (["x"] ++ "bad.fits" :: ["y"]) =
      binBuildUploads (fun _ _ => 2013)
        (fun f => if f = "bad.fits" then
          FileKind.fits ⟨"FOO", "J1", "2013-01-01", 56000, 0⟩
        else FileKind.unknown) (["x"] ++ ["y"]) ∧
    (legacyMain (fun _ _ => 2013)
        (fun _ => ⟨"FOO", "J1", "2013-01-01", 56000, 0⟩) (fun _ => [])
        (fun (s : Unit) _ _ => Except.ok s)
        (fun (s : Unit) _ _ => Except.ok s) () () ("g" :: [])).exited =
      some 1 :=
  ⟨(unrecognized_backend_skipped (fun _ _ => 2013)
      (fun f => if f = "bad.fits" then
        FileKind.fits ⟨"FOO", "J1", "2013-01-01", 56000, 0⟩
      else FileKind.unknown) ⟨"FOO", "J1", "2013-01-01", 56000, 0⟩
      "bad.fits" ["x"] ["y"] rfl (by decide) (by decide) (by decide)).1,
   (unrecognized_backend_skipped (fun _ _ => 2013)
      (fun f => if f = "bad.fits" then
        FileKind.fits ⟨"FOO", "J1", "2013-01-01", 56000, 0⟩
      else FileKind.unknown) ⟨"FOO", "J1", "2013-01-01", 56000, 0⟩
      "bad.fits" ["x"] ["y"] rfl (by decide) (by decide) (by decide)).2.1,
   (unrecognized_backend_skipped (fun _ _ => 2013)
      (fun f => if f = "bad.fits" then
        FileKind.fits ⟨"FOO", "J1", "2013-01-01", 56000, 0⟩
      else FileKind.unknown) ⟨"FOO", "J1", "2013-01-01", 56000, 0⟩
      "bad.fits" ["x"] ["y"] rfl (by decide) (by decide) (by decide)).2.2
      Unit Unit (fun _ => ⟨"FOO", "J1", "2013-01-01", 56000, 0⟩) (fun _ => [])
      (fun (s : Unit) _ _ => Except.ok s) (fun (s : Unit) _ _ => Except.ok s)
      () () "g" [] (by decide) (by decide) (by decide)⟩
